import Mathlib

/-!
Shallow embedding of the row-streaming / bulk-load core of UNO-SOFT/dbcsv.

Strings are modelled as `List Char`; all concrete inputs used in the
theorems below are ASCII (or, where noted, Latin letters whose UTF-8
byte length plays no role), so `List.length` agrees with Go's byte
`len` on every input we reason about.

`time.Parse` (Go standard library, called by `typeOf`) is treated as an
opaque predicate `dateParse : List Char → Bool`: the classifier only
observes whether the parse succeeds.  All definitions that depend on it
take it as an explicit parameter.
-/

namespace Csvload

/-- The `Type` enumeration of the csvload tool (`type Type uint8`;
`Unknown = 0, String = 1, Int = 2, Float = 3, Date = 4`). -/
inductive Ty where
  | unknown
  | string
  | int
  | float
  | date
deriving DecidableEq, Repr

/-- The body of the `strings.Map` callback inside `typeOf`: dots bump
`dotCount` and are never treated as non-digits; `hasNonDigit` latches
on the first non-digit seen. -/
def scanStep (acc : Bool × Nat) (r : Char) : Bool × Nat :=
  if r = '.' then (acc.1, acc.2 + 1)
  else if acc.1 then acc
  else (!('0' ≤ r && r ≤ '9'), acc.2)

/-- `typeOf(s string, forceString bool) Type` translated from the
source: the scan over the characters, then the digit-only /
leading-zero / dot-count analysis, the date-length window
`10 <= len(s) && len(s) <= len(DateFormat)` (with
`len(DateFormat) = len("2006-01-02 15:04:05") = 19`), and the
`time.Parse(DateFormat restricted to len(s) layout bytes, s)` call,
modelled by the opaque `dateParse` predicate. -/
def typeOf (dateParse : List Char → Bool) (s : List Char) (forceString : Bool) : Ty :=
  if forceString then .string
  else if s = [] then .unknown
  else
    let scan := s.foldl scanStep (false, 0)
    let hasNonDigit := scan.1
    let dotCount := scan.2
    if !hasNonDigit && s.head? ≠ some '0' && dotCount = 1 then .float
    else if !hasNonDigit && s.head? ≠ some '0' && dotCount = 0 then .int
    else if 10 ≤ s.length && s.length ≤ 19 && dateParse s then .date
    else .string

/-- The column-classification fold step of `CreateTable`: a column
whose running type is `String` is left alone; an `Unknown` running
type takes the sample's classification; any disagreeing classification
widens the column to `String`. -/
def inferStep (running ty : Ty) : Ty :=
  if running = .string then running
  else if running = .unknown then ty
  else if ty ≠ running then .string
  else running

/-- The column type produced by `CreateTable`'s inference loop on one
column, fed the column's successive sample values: the running type
starts at the zero value `Unknown` (`String` when `forceString` was
set, in which case the loop body is skipped, which `inferStep` also
honours because `String` absorbs everything). -/
def colTypeOf (dateParse : List Char → Bool) (forceString : Bool)
    (vs : List (List Char)) : Ty :=
  vs.foldl (fun running v => inferStep running (typeOf dateParse v forceString))
    (if forceString then .string else .unknown)

/-- A date-parse oracle used for concrete evaluations on inputs whose
classification never reaches the date branch (digit-only or empty
strings); `typeOf` ignores the oracle on such inputs. -/
def noDate : List Char → Bool := fun _ => false

/-- The single-value classification algorithm as the specification
words it: forced ⇒ `String`; empty ⇒ `Unknown`; no non-digit
characters (dots excepted), not leading with a zero digit and exactly
one dot ⇒ `Float`, zero dots ⇒ `Integer`; otherwise a string whose
length lies in the plausible date range and which parses against the
truncated date layout ⇒ `Date`; anything else ⇒ `String`. -/
def typeOfSpec (dateParse : List Char → Bool) (s : List Char) (forceString : Bool) : Ty :=
  if forceString then .string
  else if s = [] then .unknown
  else if s.all (fun r => r = '.' || ('0' ≤ r && r ≤ '9')) && s.head? ≠ some '0'
      && s.count '.' = 1 then .float
  else if s.all (fun r => r = '.' || ('0' ≤ r && r ≤ '9')) && s.head? ≠ some '0'
      && s.count '.' = 0 then .int
  else if 10 ≤ s.length && s.length ≤ 19 && dateParse s then .date
  else .string

/-- The order-free description of the inference fold on a column whose
samples never classify as `Unknown`: the head classification if all
samples agree, `String` otherwise (`Unknown` for an empty column). -/
def canonicalCol : List Ty → Ty
  | [] => .unknown
  | t :: rest => if rest.all (· == t) then t else .string

/-- The destination-column metadata record of csvload
(`type Column struct`; the Go field `Type` is spelled `Typ` here since
`Type` is reserved in Lean). -/
structure Column where
  Name : List Char
  DataType : List Char
  Length : Int
  Precision : Int
  Scale : Int
  Typ : Ty
  Nullable : Bool
deriving DecidableEq, Repr

def tCLOB : List Char := ['C', 'L', 'O', 'B']

def tBLOB : List Char := ['B', 'L', 'O', 'B']

def DefaultChunkSize : Int := 1024

/-- The effective batch size computed at the start of `Config.Load`:
a non-positive configured `ChunkSize` falls back to
`DefaultChunkSize = 1024`, and the scan over the destination columns
forces the size down to `1` as soon as one column's `DataType` is
`CLOB` or `BLOB`. -/
def effectiveChunkSize (cfgChunkSize : Int) (columns : List Column) : Int :=
  let chunkSize := if cfgChunkSize ≤ 0 then DefaultChunkSize else cfgChunkSize
  if columns.any (fun c => c.DataType == tCLOB || c.DataType == tBLOB) then 1
  else chunkSize

/-- The row-shape check of the `Load` worker: a source row with more
fields than destination columns is rejected (`ErrTooManyFields`,
modelled as `none`) when its last field is non-empty, and is
otherwise silently truncated to the first `nCols` fields. -/
def fitRow (nCols : Nat) (row : List (List Char)) : Option (List (List Char)) :=
  if nCols < row.length then
    if row.getLast? ≠ some [] then none
    else some (row.take nCols)
  else some row

/-- `allEmpty` as computed per row in `Load`'s `ReadRows` callback:
every field of the row is the empty string. -/
def allEmptyRow (row : List (List Char)) : Bool :=
  row.all fun s => s == ([] : List Char)

/-- One step of `Load`'s producer callback, on the state
(batches already emitted to the channel, current chunk, headerSeen):
the first surfaced row only flips `headerSeen`; all-empty rows are
skipped; other rows are appended to the chunk, which is emitted as a
batch once it reaches `chunkSize`. -/
def loadStep (chunkSize : Nat)
    (st : List (List (List (List Char))) × List (List (List Char)) × Bool)
    (row : List (List Char)) :
    List (List (List (List Char))) × List (List (List Char)) × Bool :=
  let (batches, chunk, headerSeen) := st
  if !headerSeen then (batches, chunk, true)
  else if allEmptyRow row then (batches, chunk, true)
  else
    let chunk' := chunk ++ [row]
    if chunk'.length < chunkSize then (batches, chunk', true)
    else (batches ++ [chunk'], [], true)

/-- The batches `Load`'s producer sends to the worker channel for a
given surfaced row sequence, including the final flush of a non-empty
leftover chunk (`if len(chunk) != 0`). -/
def loadBatches (chunkSize : Nat) (rows : List (List (List Char))) :
    List (List (List (List Char))) :=
  let st := rows.foldl (loadStep chunkSize) ([], [], false)
  if st.2.1 ≠ [] then st.1 ++ [st.2.1] else st.1

/-- `unicode.ToUpper` restricted to the character sets `mkColName` can
meaningfully distinguish: ASCII letters, the Latin-1 lowercase range
(à–þ except ÷), and the Hungarian double-acute letters ő and ű.  Other
characters are left as is; any such character is mapped to an
underscore by `sanitizeRune` below, just as Go would map its uppercase
form (which in these cases is neither an ASCII alphanumeric nor one of
the nine accented letters the switch recognizes). -/
def goToUpper (c : Char) : Char :=
  if 'a' ≤ c ∧ c ≤ 'z' then Char.ofNat (c.toNat - 32)
  else if c = 'ő' then 'Ő'
  else if c = 'ű' then 'Ű'
  else if 0xE0 ≤ c.toNat ∧ c.toNat ≤ 0xFE ∧ c.toNat ≠ 0xF7 then Char.ofNat (c.toNat - 32)
  else c

/-- The `strings.Map` callback of `mkColName`: uppercase, transliterate
the nine Hungarian accented vowels, keep `_`, `A`–`Z` and `0`–`9`,
replace everything else with `_`. -/
def sanitizeRune (r : Char) : Char :=
  let r := goToUpper r
  if r = 'Á' then 'A'
  else if r = 'É' then 'E'
  else if r = 'Í' then 'I'
  else if r = 'Ö' ∨ r = 'Ő' ∨ r = 'Ó' then 'O'
  else if r = 'Ü' ∨ r = 'Ű' ∨ r = 'Ú' then 'U'
  else if r = '_' then '_'
  else if ('A' ≤ r ∧ r ≤ 'Z') ∨ ('0' ≤ r ∧ r ≤ '9') then r
  else '_'

/-- The sanitization pass of `mkColName` before the length check: the
character map followed by the `X` prefix for a leading underscore.
(Go reads `v[0]` and so panics on an empty input; the claim only
concerns non-empty headers.) -/
def sanX (v : List Char) : List Char :=
  let v := v.map sanitizeRune
  if v.head? = some '_' then 'X' :: v else v

/-- 32-bit FNV-1 (`fnv.New32`: multiply by 16777619 mod 2^32, then xor
the byte) over the bytes of a sanitized (ASCII) name. -/
def fnv32 (bs : List Char) : Nat :=
  bs.foldl (fun h c => ((h * 16777619) % 4294967296) ^^^ c.toNat) 2166136261

/-- The standard base32 alphabet used by `base32.StdEncoding`. -/
def b32alphabet : List Char :=
  ['A', 'B', 'C', 'D', 'E', 'F', 'G', 'H', 'I', 'J', 'K', 'L', 'M',
   'N', 'O', 'P', 'Q', 'R', 'S', 'T', 'U', 'V', 'W', 'X', 'Y', 'Z',
   '2', '3', '4', '5', '6', '7']

/-- `base32.StdEncoding.WithPadding(NoPadding)` of the 4 big-endian
bytes of a 32-bit hash: seven 5-bit groups taken from the top, the
last group padded with three zero bits. -/
def base32ofHash (h : Nat) : List Char :=
  [h / 2 ^ 27 % 32, h / 2 ^ 22 % 32, h / 2 ^ 17 % 32, h / 2 ^ 12 % 32,
   h / 2 ^ 7 % 32, h / 2 ^ 2 % 32, h % 4 * 8].map
    fun i => b32alphabet.getD i 'A'

/-- `mkColName` translated from the source: sanitize; keep names of at
most 30 bytes; otherwise truncate to 23 bytes and append the 7-byte
base32 rendering of the FNV-1 digest of the whole sanitized name. -/
def mkColName (v : List Char) : List Char :=
  let v := sanX v
  if v.length ≤ 30 then v
  else v.take 23 ++ base32ofHash (fnv32 v)

end Csvload

namespace Dbcsv

/-- `strings.Replace(s, "\"", "\"\"", -1)`: each double-quote doubled. -/
def escQuotes : List Char → List Char
  | [] => []
  | c :: r => if c = '"' then '"' :: '"' :: escQuotes r else c :: escQuotes r

/-- `csvQuote`'s quoting condition: `strings.Contains(s, sep)` or the
string contains a double quote or a newline (`strings.ContainsAny`). -/
def csvNeedQuote (sep s : List Char) : Bool :=
  decide (sep <:+: s) || s.any fun c => c == '"' || c == '\n'

/-- The bytes `csvQuote(w, sep, s)` writes: `s` wrapped in double
quotes with internal quotes doubled when the quoting condition holds,
`s` verbatim otherwise. -/
def csvQuote (sep s : List Char) : List Char :=
  if csvNeedQuote sep s then '"' :: (escQuotes s ++ ['"']) else s

/-- `csvQuoteString(sep, s)`: empty separator short-circuits to `s`. -/
def csvQuoteString (sep s : List Char) : List Char :=
  if sep = [] then s else csvQuote sep s

/-- The inverse transformation the specification describes: undo the
doubling of internal quotes, greedily left to right, the way
`strings.Replace` with a doubled-quote pattern would. -/
def unescQuotes : List Char → List Char
  | [] => []
  | [c] => [c]
  | c :: d :: r =>
    if c = '"' ∧ d = '"' then '"' :: unescQuotes r else c :: unescQuotes (d :: r)

/-- The inverse rendering: strip the outer quotes (when present) and
un-double internal quotes. -/
def csvUnquote (t : List Char) : List Char :=
  if 2 ≤ t.length ∧ t.head? = some '"' ∧ t.getLast? = some '"' then
    unescQuotes (t.drop 1).dropLast
  else t

/-- `Config.parseColumnsString`'s index arithmetic: each caller-supplied
1-based column number `i` (after `strconv.Atoi`) is stored as the
0-based index `i - 1`. -/
def parseColumns (oneBased : List Int) : List Int :=
  oneBased.map fun i => i - 1

/-- Go slice indexing `row[j]` as used by `ReadCSV`'s projection loop:
`none` models the runtime panic "index out of range". -/
def goIndex (row : List (List Char)) (j : Int) : Option (List Char) :=
  if 0 ≤ j ∧ j < (row.length : Int) then some (row.getD j.toNat []) else none

/-- The projection loop of `ReadCSV`
(`r2 := make([]string, len(columns))` and `r2[i] = row[j]` over the
configured indices): builds the remapped row, aborting (panic,
modelled `none`) on any out-of-range index. -/
def projectRow (columns : List Int) (row : List (List Char)) :
    Option (List (List Char)) :=
  match columns with
  | [] => some []
  | j :: rest =>
    match goIndex row j, projectRow rest row with
    | some v, some vs => some (v :: vs)
    | _, _ => none

/-- `FType` tags (`Unknown`, `Csv`, `Xls`, `XlsX`, `Gzip`, `Zstd`);
`unknown` is the empty string, doubling as the "no compression"
value of `FileType.Compression`. -/
inductive FTy where
  | unknown
  | csv
  | xls
  | xlsx
  | gzip
  | zstd
deriving DecidableEq, Repr

/-- `FileType`: container type plus compression wrapper. -/
structure FileType where
  Typ : FTy
  Compression : FTy
deriving DecidableEq, Repr

/-- A byte stream as `DetectReaderType` observes it: the bytes readable
from the front, plus what `gzip.NewReader` (resp. `zstd.NewReader`)
would yield if the detector attempted to open a decompressor on it —
`none` models a failed open, `some inner` the decompressed stream. -/
inductive Stream where
  | mk (head : List Nat) (gz : Option Stream) (zst : Option Stream)

/-- `DetectReaderType` translated from the source: read 4 bytes (fewer
⇒ `Unknown` plus the read error); OLE2 magic ⇒ xls; PKZip magic ⇒
xlsx; gzip magic (first 3 bytes) ⇒ recursively detect the decompressed
stream and overwrite its compression tag with gzip, or plain csv with
no error when the decompressor fails to open; zstd magic ⇒ the same
with zstd; anything else ⇒ csv.  The `Bool` is the error flag. -/
def DetectReaderType : Stream → FileType × Bool
  | .mk head gz zst =>
    if head.length < 4 then (⟨.unknown, .unknown⟩, true)
    else if head.take 4 = [0xd0, 0xcf, 0x11, 0xe0] then (⟨.xls, .unknown⟩, false)
    else if head.take 4 = [0x50, 0x4b, 0x03, 0x04] then (⟨.xlsx, .unknown⟩, false)
    else if head.take 3 = [0x1f, 0x8b, 0x8] then
      match gz with
      | none => (⟨.csv, .unknown⟩, false)
      | some inner =>
        let sub := DetectReaderType inner
        (⟨sub.1.Typ, .gzip⟩, sub.2)
    else if head.take 4 = [0x28, 0xb5, 0x2f, 0xfd] then
      match zst with
      | none => (⟨.csv, .unknown⟩, false)
      | some inner =>
        let sub := DetectReaderType inner
        (⟨sub.1.Typ, .zstd⟩, sub.2)
    else (⟨.csv, .unknown⟩, false)

/-- `lengthNL`: 1 when the line ends in a newline, else 0. -/
def lengthNL (line : List Char) : Nat :=
  if line.getLast? = some '\n' then 1 else 0

/-- The carriage-return-newline to newline normalization
`csv.Reader.readLine` applies to the end of every line. -/
def normNL (line : List Char) : List Char :=
  if 2 ≤ line.length ∧ line.getD (line.length - 2) ' ' = '\r'
      ∧ line.getLast? = some '\n'
  then line.dropLast.dropLast ++ ['\n'] else line

/-- At EOF (line without a final newline) `readLine` drops a trailing
carriage return. -/
def dropTrailingCR (s : List Char) : List Char :=
  if s.getLast? = some '\r' then s.dropLast else s

/-- `csv.Reader.readLine`: the next line (including its newline, with
the CRLF ending normalized to a bare newline) and the remaining input.
A read that hits EOF with data keeps the partial line (error
suppressed). -/
def readLine (s : List Char) : List Char × List Char :=
  let i := s.findIdx (· == '\n')
  if i < s.length then (normNL (s.take (i + 1)), s.drop (i + 1))
  else (dropTrailingCR s, [])

/-- The loop at the head of `csv.Reader.readRecord` that skips empty
lines; `none` models `errRead == io.EOF` (no record at all). -/
def skipEmptyLines : Nat → List Char → Option (List Char × List Char)
  | 0, _ => none
  | _, [] => none
  | fuel + 1, s =>
    let p := readLine s
    if p.1 = [] ∨ p.1 = ['\n'] then skipEmptyLines fuel p.2
    else some p

mutual

/-- The `parseField` loop of `csv.Reader.readRecord` with
`LazyQuotes = false` and `TrimLeadingSpace = false`, specialized to the
first record: `line` is the remainder of the current line, `rest` the
input beyond it, `acc` the completed fields.  On a parse error
(`ErrBareQuote`/`ErrQuote`) Go returns the fields completed so far
together with the error; `cr.Read()`'s record is that partial slice,
which is what the delimiter-detection loop measures. -/
def parseFields (comma : Char) : Nat → List Char → List Char →
    List (List Char) → List (List Char)
  | 0, _, _, acc => acc
  | fuel + 1, line, rest, acc =>
    if line.head? = some '"' then parseQuoted comma fuel (line.drop 1) rest [] acc
    else
      let i := line.findIdx (· == comma)
      if i < line.length then
        let field := line.take i
        if field.contains '"' then acc
        else parseFields comma fuel (line.drop (i + 1)) rest (acc ++ [field])
      else
        let field := line.take (line.length - lengthNL line)
        if field.contains '"' then acc
        else acc ++ [field]

/-- The quoted-field inner loop of `readRecord`: scan to the closing
quote, handling `""` escapes, `",` field ends, `"\n` record ends,
multi-line quoted fields (read another line), `ErrQuote` on a stray
character after a closing quote, and `ErrQuote` at abrupt EOF. -/
def parseQuoted (comma : Char) : Nat → List Char → List Char →
    List Char → List (List Char) → List (List Char)
  | 0, _, _, _, acc => acc
  | fuel + 1, line, rest, fieldAcc, acc =>
    let i := line.findIdx (· == '"')
    if i < line.length then
      let fieldAcc2 := fieldAcc ++ line.take i
      let line2 := line.drop (i + 1)
      match line2.head? with
      | some c =>
        if c = '"' then
          parseQuoted comma fuel (line2.drop 1) rest (fieldAcc2 ++ ['"']) acc
        else if c = comma then
          parseFields comma fuel (line2.drop 1) rest (acc ++ [fieldAcc2])
        else if line2 = ['\n'] then acc ++ [fieldAcc2]
        else acc
      | none => acc ++ [fieldAcc2]
    else if line = [] then acc
    else
      let p := readLine rest
      parseQuoted comma fuel p.1 p.2 (fieldAcc ++ line) acc

end

/-- The first record `csv.NewReader(b)` (with `Comma = comma`) returns;
parse errors yield the partial record, exactly what
`v, _ := cr.Read(); len(v)` observes in the detection loop.  The fuel
is generous: every iteration consumes at least one input character. -/
def readFirstRecord (comma : Char) (s : List Char) : List (List Char) :=
  match skipEmptyLines (s.length + 1) s with
  | none => []
  | some p => parseFields comma (p.1.length + p.2.length + 2) p.1 p.2 []

/-- The candidate delimiters of `ReadCSV`, in enumeration order. -/
def candidateDelims : List Char := [',', ';', '\t', ' ']

def countFields (comma : Char) (b : List Char) : Nat :=
  (readFirstRecord comma b).length

/-- The delimiter-selection loop of `ReadCSV`: split the sampled bytes
with each candidate and keep the candidate with the strictly larger
field count (`n > maxCnt`), so ties keep the earlier candidate.
`none` models `delim` remaining the empty string. -/
def detectDelim (b : List Char) : Option Char :=
  (candidateDelims.foldl
    (fun acc r =>
      let n := countFields r b
      if n > acc.1 then (n, some r) else acc)
    ((0 : Nat), (none : Option Char))).2

/-- Delimiter auto-detection in `ReadCSV` when no delimiter is
configured: at most 1024 bytes are sampled (`br.Peek(1024)`). -/
def readCSVDetectDelim (s : List Char) : Option Char :=
  detectDelim (s.take 1024)

/-- The selection loop unrolled over the four candidates. -/
def goPick (n1 n2 n3 n4 : Nat) : Nat × Option Char :=
  let a0 : Nat × Option Char := (0, none)
  let a1 := if n1 > a0.1 then (n1, some ',') else a0
  let a2 := if n2 > a1.1 then (n2, some ';') else a1
  let a3 := if n3 > a2.1 then (n3, some '\t') else a2
  if n4 > a3.1 then (n4, some ' ') else a3

end Dbcsv

namespace Csvload

example : typeOf noDate ['1'] false = .int := by decide

example : typeOf noDate [] false = .unknown := by decide

example : colTypeOf noDate false [['1'], []] = .string := by decide

example : colTypeOf noDate false [[], ['1']] = .int := by decide

/-- The character scan of `typeOf` computes "some non-dot character is
a non-digit" and the number of dots. -/
theorem typeOf_scan (s : List Char) (b : Bool) (n : Nat) :
    s.foldl scanStep (b, n)
      = (b || s.any (fun r => !(r = '.') && !('0' ≤ r && r ≤ '9')),
         n + s.count '.') := by
  induction s generalizing b n with
  | nil => simp
  | cons c cs ih =>
    rw [List.foldl_cons]
    by_cases hc : c = '.'
    · subst hc
      have h1 : scanStep (b, n) '.' = (b, n + 1) := by simp [scanStep]
      rw [h1, ih, List.any_cons, List.count_cons, Prod.mk.injEq]
      constructor
      · simp
      · simp
        omega
    · have h2 : scanStep (b, n) c = (b || !('0' ≤ c && c ≤ '9'), n) := by
        by_cases hb : b <;> simp [scanStep, hb, hc]
      rw [h2, ih, List.any_cons, List.count_cons, Prod.mk.injEq]
      constructor
      · simp [hc, Bool.or_assoc]
      · simp [hc]

theorem not_any_nondigit_eq_all (s : List Char) :
    (!s.any fun r => !(r = '.') && !('0' ≤ r && r ≤ '9'))
      = s.all fun r => r = '.' || ('0' ≤ r && r ≤ '9') := by
  induction s with
  | nil => simp
  | cons c cs ih =>
    simp only [List.any_cons, List.all_cons, Bool.not_or, ← ih]
    by_cases hc : c = '.' <;> simp [hc]

/-- C2: `typeOf` computes exactly the classification the specification
describes — forced ⇒ String, empty ⇒ Unknown, digits-only without a
leading zero ⇒ Float (one dot) or Integer (no dot), else Date when the
length is plausible and the truncated-layout parse succeeds, else
String — for every sample string, force flag and date-parse oracle. -/
theorem typeOf_eq_spec (dateParse : List Char → Bool) (s : List Char) (forceString : Bool) :
    typeOf dateParse s forceString = typeOfSpec dateParse s forceString := by
  unfold typeOf typeOfSpec
  by_cases hf : forceString
  · simp [hf]
  by_cases hs : s = []
  · simp [hs]
  simp only [hf, hs, if_false, typeOf_scan, Bool.false_or, Nat.zero_add,
    not_any_nondigit_eq_all]

/-- What the inference fold computes once the running type has left
`Unknown`: the running type survives exactly when every remaining
classification agrees with it; any disagreement pins the column to
`String` forever (widening, never narrowing). -/
theorem inferFold_of_ne_unknown (st : Ty) (h : st ≠ .unknown) (l : List Ty) :
    l.foldl inferStep st = if l.all (· == st) then st else .string := by
  induction l generalizing st with
  | nil => simp
  | cons c cs ih =>
    rw [List.foldl_cons, List.all_cons]
    by_cases hst : st = Ty.string
    · subst hst
      have h1 : inferStep Ty.string c = Ty.string := by simp [inferStep]
      rw [h1, ih Ty.string (by simp)]
      by_cases hall : (cs.all (· == Ty.string)) = true <;> simp [hall]
    · by_cases hc : c = st
      · subst hc
        have h1 : inferStep c c = c := by simp [inferStep, hst, h]
        rw [h1, ih c h]
        simp
      · have h1 : inferStep st c = Ty.string := by simp [inferStep, hst, h, hc]
        rw [h1, ih Ty.string (by simp)]
        have hbe : (c == st) = false := by simp [hc]
        rw [hbe]
        by_cases hall : (cs.all (· == Ty.string)) = true <;> simp [hall]

/-- `canonicalCol` is invariant under permutations. -/
theorem canonicalCol_perm (l₁ l₂ : List Ty) (h : l₁.Perm l₂) :
    canonicalCol l₁ = canonicalCol l₂ := by
  match l₁, l₂, h.length_eq with
  | [], [], _ => rfl
  | [], _ :: _, hlen => simp at hlen
  | _ :: _, [], hlen => simp at hlen
  | t₁ :: r₁, t₂ :: r₂, _ =>
    have hmem : ∀ x : Ty, x ∈ t₁ :: r₁ ↔ x ∈ t₂ :: r₂ := fun x => h.mem_iff
    by_cases h1 : ∀ x ∈ t₁ :: r₁, x = t₁
    · have h2 : ∀ x ∈ t₂ :: r₂, x = t₁ := fun x hx => h1 x ((hmem x).2 hx)
      have ht : t₂ = t₁ := h2 t₂ (List.mem_cons_self _ _)
      subst ht
      have e1 : (r₁.all (· == t₂)) = true :=
        List.all_eq_true.2 fun x hx => beq_iff_eq.2 (h1 x (List.mem_cons_of_mem _ hx))
      have e2 : (r₂.all (· == t₂)) = true :=
        List.all_eq_true.2 fun x hx => beq_iff_eq.2 (h2 x (List.mem_cons_of_mem _ hx))
      simp only [canonicalCol, e1, e2, if_true]
    · have h2 : ¬∀ x ∈ t₂ :: r₂, x = t₂ := by
        intro hall
        apply h1
        intro x hx
        have hx₂ := (hmem x).1 hx
        have ht : t₁ = t₂ := hall t₁ ((hmem t₁).1 (List.mem_cons_self _ _))
        exact (hall x hx₂).trans ht.symm
      have e1 : (r₁.all (· == t₁)) = false := by
        rw [Bool.eq_false_iff]
        intro hall
        exact h1 fun x hx => by
          rcases List.mem_cons.1 hx with hx | hx
          · exact hx
          · exact beq_iff_eq.1 (List.all_eq_true.1 hall x hx)
      have e2 : (r₂.all (· == t₂)) = false := by
        rw [Bool.eq_false_iff]
        intro hall
        exact h2 fun x hx => by
          rcases List.mem_cons.1 hx with hx | hx
          · exact hx
          · exact beq_iff_eq.1 (List.all_eq_true.1 hall x hx)
      simp only [canonicalCol, e1, e2]
      rfl

/-- On classification sequences free of `Unknown`, the inference fold
computes `canonicalCol`. -/
theorem inferFold_eq_canonical (l : List Ty) (hu : Ty.unknown ∉ l) :
    l.foldl inferStep .unknown = canonicalCol l := by
  match l with
  | [] => rfl
  | t :: rest =>
    have ht : t ≠ Ty.unknown := fun h => hu (h ▸ List.mem_cons_self _ _)
    have h1 : inferStep Ty.unknown t = t := by simp [inferStep]
    rw [List.foldl_cons, h1, inferFold_of_ne_unknown t ht rest]
    rfl

/-- A column pinned to `String` stays `String`. -/
theorem inferFold_string (l : List Ty) : l.foldl inferStep .string = .string := by
  rw [inferFold_of_ne_unknown Ty.string (by simp)]
  split <;> rfl

/-- `colTypeOf` as a fold of `inferStep` over the per-sample
classifications. -/
theorem colTypeOf_eq_fold (d : List Char → Bool) (f : Bool) (vs : List (List Char)) :
    colTypeOf d f vs
      = (vs.map (fun v => typeOf d v f)).foldl inferStep
          (if f then .string else .unknown) := by
  unfold colTypeOf
  rw [List.foldl_map]

/-- C1 (amended): `CreateTable`'s column-type fold is permutation
invariant provided no sample value classifies as `Unknown` (that is, no
empty sample strings): any permutation of the sample sequence yields
the same inferred column type.  (With an `Unknown`-classified sample
present this fails: see the counterexample.) -/
theorem colTypeOf_perm_invariant_of_no_unknown (d : List Char → Bool) (f : Bool)
    (vs₁ vs₂ : List (List Char)) (hp : vs₁.Perm vs₂)
    (hu : ∀ v ∈ vs₁, typeOf d v f ≠ .unknown) :
    colTypeOf d f vs₁ = colTypeOf d f vs₂ := by
  rw [colTypeOf_eq_fold, colTypeOf_eq_fold]
  by_cases hf : f
  · simp only [hf, if_true, inferFold_string]
  · rw [if_neg hf]
    have h₁ : Ty.unknown ∉ vs₁.map (fun v => typeOf d v f) := by
      intro hmem
      obtain ⟨v, hv, heq⟩ := List.mem_map.1 hmem
      exact hu v hv heq
    have h₂ : Ty.unknown ∉ vs₂.map (fun v => typeOf d v f) := by
      intro hmem
      exact h₁ (((hp.map _).mem_iff).2 hmem)
    rw [inferFold_eq_canonical _ h₁, inferFold_eq_canonical _ h₂]
    exact canonicalCol_perm _ _ (hp.map _)

/-- Witness for C1 (amended) at the concrete samples `["1","2"]` and
`["2","1"]`. -/
theorem colTypeOf_perm_invariant_witness :
    colTypeOf noDate false [['1'], ['2']] = colTypeOf noDate false [['2'], ['1']] :=
  colTypeOf_perm_invariant_of_no_unknown noDate false _ _
    (List.Perm.swap _ _ _) (by decide)

/-- C1 counterexample: the two sample sequences `["1", ""]` and
`["", "1"]` are permutations of one another (hence have equal multisets
of per-string classifications), yet the inference loop yields `String`
for the first and `Int` for the second: a trailing empty sample widens
an `Int` column to `String`, while a leading empty sample is absorbed
by the initial `Unknown` state. -/
theorem colTypeOf_order_dependent_counterexample :
    ([['1'], ([] : List Char)]).Perm [[], ['1']]
      ∧ colTypeOf noDate false [['1'], []] = .string
      ∧ colTypeOf noDate false [[], ['1']] = .int := by
  refine ⟨List.Perm.swap _ _ _, by decide, by decide⟩

/-- C9: the effective batch size defaults to 1024 when the configured
size is not positive, is the configured size when positive, and is
forced to exactly 1 whenever any destination column is a CLOB or BLOB,
regardless of the configured size. -/
theorem effectiveChunkSize_spec (cfgChunkSize : Int) (columns : List Column) :
    ((columns.any fun c => c.DataType == tCLOB || c.DataType == tBLOB) = true →
        effectiveChunkSize cfgChunkSize columns = 1)
      ∧ ((columns.any fun c => c.DataType == tCLOB || c.DataType == tBLOB) = false →
          cfgChunkSize ≤ 0 → effectiveChunkSize cfgChunkSize columns = 1024)
      ∧ ((columns.any fun c => c.DataType == tCLOB || c.DataType == tBLOB) = false →
          0 < cfgChunkSize → effectiveChunkSize cfgChunkSize columns = cfgChunkSize) := by
  unfold effectiveChunkSize DefaultChunkSize
  refine ⟨fun hlob => ?_, fun hlob hc => ?_, fun hlob hc => ?_⟩
  · simp [hlob]
  · simp [hlob, hc]
  · have : ¬cfgChunkSize ≤ 0 := by omega
    simp [hlob, this]

/-- Witness for C9: a CLOB column forces batch size 1 even for a
configured size of 5000; without LOB columns, -3 defaults to 1024 and
100 stays 100. -/
theorem effectiveChunkSize_witness :
    effectiveChunkSize 5000 [⟨['P'], tCLOB, 0, 0, 0, .unknown, true⟩] = 1
      ∧ effectiveChunkSize (-3) [] = 1024
      ∧ effectiveChunkSize 100 [] = 100 :=
  ⟨(effectiveChunkSize_spec 5000 _).1 (by decide),
   (effectiveChunkSize_spec (-3) []).2.1 (by decide) (by decide),
   (effectiveChunkSize_spec 100 []).2.2 (by decide) (by decide)⟩

/-- C3 (amended): an over-long source row is a fatal
`ErrTooManyFields` error exactly when its last field is non-empty;
when the last field is empty the excess fields are silently dropped
(even if other excess fields are non-empty) and the row keeps its
first `nCols` fields. -/
theorem fitRow_spec (nCols : Nat) (row : List (List Char))
    (hlong : nCols < row.length) :
    (row.getLast? = some [] → fitRow nCols row = some (row.take nCols))
      ∧ (row.getLast? ≠ some [] → fitRow nCols row = none) := by
  unfold fitRow
  constructor
  · intro hlast
    simp [hlong, hlast]
  · intro hlast
    simp [hlong, hlast]

/-- Witness for C3 (amended) at concrete over-long rows. -/
theorem fitRow_witness :
    fitRow 1 [['a'], []] = some [['a']] ∧ fitRow 1 [['a'], ['b']] = none :=
  ⟨(fitRow_spec 1 [['a'], []] (by decide)).1 (by decide),
   (fitRow_spec 1 [['a'], ['b']] (by decide)).2 (by decide)⟩

/-- C3 counterexample: the row `["a","b","x",""]` against 2 destination
columns has excess fields `["x",""]` that are not all empty, yet the
code accepts it and silently drops the excess (it only inspects the
last field), contradicting the claim that such a row is fatal. -/
theorem fitRow_counterexample :
    fitRow 2 [['a'], ['b'], ['x'], []] = some [['a'], ['b']]
      ∧ ((List.drop 2 [['a'], ['b'], ['x'], []]).all
          fun s => s == ([] : List Char)) = false := by
  decide

/-- Invariant of the producer fold after the header has been consumed:
finishing from any intermediate state flushes the pending chunk, and
the concatenation of all batches is the already-batched rows, the
pending chunk, and the non-all-empty remaining rows in order. -/
theorem loadBatches_aux (chunkSize : Nat) (rows : List (List (List Char)))
    (batches : List (List (List (List Char)))) (chunk : List (List (List Char))) :
    (let st := rows.foldl (loadStep chunkSize) (batches, chunk, true)
     (if st.2.1 ≠ [] then st.1 ++ [st.2.1] else st.1).flatten)
      = batches.flatten ++ chunk ++ rows.filter (fun r => !allEmptyRow r) := by
  induction rows generalizing batches chunk with
  | nil =>
    simp only [List.foldl_nil, List.filter_nil, List.append_nil]
    by_cases hc : chunk = []
    · simp [hc]
    · simp [hc]
  | cons r rs ih =>
    rw [List.foldl_cons]
    by_cases he : allEmptyRow r
    · have hstep : loadStep chunkSize (batches, chunk, true) r = (batches, chunk, true) := by
        simp [loadStep, he]
      rw [hstep, ih]
      simp [List.filter_cons, he]
    · have hfil : (r :: rs).filter (fun r => !allEmptyRow r)
          = r :: rs.filter (fun r => !allEmptyRow r) := by
        simp [List.filter_cons, he]
      by_cases hlen : (chunk ++ [r]).length < chunkSize
      · have hstep : loadStep chunkSize (batches, chunk, true) r
            = (batches, chunk ++ [r], true) := by
          simp only [List.length_append, List.length_cons, List.length_nil,
            Nat.zero_add] at hlen
          simp [loadStep, he, hlen]
        rw [hstep, ih, hfil]
        simp
      · have hstep : loadStep chunkSize (batches, chunk, true) r
            = (batches ++ [chunk ++ [r]], [], true) := by
          simp only [List.length_append, List.length_cons, List.length_nil,
            Nat.zero_add] at hlen
          simp [loadStep, he, hlen]
        rw [hstep, ih, hfil]
        simp

/-- C10: concatenating every batch the producer emits yields exactly
the surfaced rows minus the first (header) row and minus every
all-empty row — so the header and all-empty rows are never placed into
a batch, never sent to the database, and (the per-batch inserted
counter being incremented by batch length) never counted; the batched
row count is exactly the number of non-header, non-all-empty rows. -/
theorem loadBatches_join (chunkSize : Nat) (rows : List (List (List Char))) :
    (loadBatches chunkSize rows).flatten
        = (rows.drop 1).filter (fun r => !allEmptyRow r)
      ∧ ((loadBatches chunkSize rows).map List.length).sum
        = ((rows.drop 1).filter (fun r => !allEmptyRow r)).length := by
  have hjoin : (loadBatches chunkSize rows).flatten
      = (rows.drop 1).filter (fun r => !allEmptyRow r) := by
    match rows with
    | [] => rfl
    | r :: rs =>
      unfold loadBatches
      rw [List.foldl_cons]
      have hstep : loadStep chunkSize ([], [], false) r = ([], [], true) := by
        simp [loadStep]
      rw [hstep]
      have := loadBatches_aux chunkSize rs [] []
      simp only at this
      rw [this]
      simp
  refine ⟨hjoin, ?_⟩
  rw [← List.length_flatten, hjoin]

/-- The base32 alphabet has no repeated characters. -/
theorem b32alphabet_getD_inj :
    ∀ i < 32, ∀ j < 32, b32alphabet.getD i 'A' = b32alphabet.getD j 'A' → i = j := by
  decide

/-- Base32 encoding is injective on 32-bit hashes. -/
theorem base32ofHash_inj (h₁ h₂ : Nat) (hb₁ : h₁ < 4294967296)
    (hb₂ : h₂ < 4294967296) (heq : base32ofHash h₁ = base32ofHash h₂) :
    h₁ = h₂ := by
  simp only [base32ofHash, List.map_cons, List.map_nil, List.cons.injEq,
    and_true] at heq
  obtain ⟨e0, e1, e2, e3, e4, e5, e6⟩ := heq
  have g0 := b32alphabet_getD_inj _ (by omega) _ (by omega) e0
  have g1 := b32alphabet_getD_inj _ (by omega) _ (by omega) e1
  have g2 := b32alphabet_getD_inj _ (by omega) _ (by omega) e2
  have g3 := b32alphabet_getD_inj _ (by omega) _ (by omega) e3
  have g4 := b32alphabet_getD_inj _ (by omega) _ (by omega) e4
  have g5 := b32alphabet_getD_inj _ (by omega) _ (by omega) e5
  have g6 := b32alphabet_getD_inj _ (by omega) _ (by omega) e6
  omega

/-- The FNV-1 digest is a 32-bit value. -/
theorem fnv32_lt (bs : List Char) : fnv32 bs < 4294967296 := by
  unfold fnv32
  have key : ∀ (l : List Char) (h : Nat), h < 4294967296 →
      l.foldl (fun h c => ((h * 16777619) % 4294967296) ^^^ c.toNat) h < 4294967296 := by
    intro l
    induction l with
    | nil => intro h hh; exact hh
    | cons c r ih =>
      intro h hh
      refine ih _ ?_
      have h1 : (h * 16777619) % 4294967296 < 2 ^ 32 := by
        omega
      have h2 : c.toNat < 2 ^ 32 := by
        have := c.val.toNat_lt
        simp only [Char.toNat]
        omega
      have := Nat.xor_lt_two_pow h1 h2
      simpa using this
  exact key bs 2166136261 (by norm_num)

/-- C8 (amended): for every non-empty header the sanitized identifier
has at most 30 characters (short names are kept as sanitized, long
names are truncated to 23 characters plus a 7-character base32 digest);
and two headers whose sanitized forms are long (over 30 characters),
agree on their first 23 characters and have distinct FNV-1 digests
yield distinct identifiers.  (Distinctness cannot hold unconditionally:
the digest is a 32-bit hash, see the counterexample.) -/
theorem mkColName_spec :
    (∀ v : List Char, v ≠ [] → (mkColName v).length ≤ 30)
      ∧ ∀ v₁ v₂ : List Char, 30 < (sanX v₁).length → 30 < (sanX v₂).length →
          (sanX v₁).take 23 = (sanX v₂).take 23 →
          fnv32 (sanX v₁) ≠ fnv32 (sanX v₂) →
          mkColName v₁ ≠ mkColName v₂ := by
  constructor
  · intro v _
    unfold mkColName
    by_cases hlen : (sanX v).length ≤ 30
    · simp [hlen]
    · have h23 : ((sanX v).take 23).length = 23 := by
        rw [List.length_take]
        omega
      have h7 : (base32ofHash (fnv32 (sanX v))).length = 7 := by
        simp [base32ofHash]
      simp only [hlen, if_false, List.length_append, h23, h7]
      omega
  · intro v₁ v₂ h₁ h₂ htake hfnv heq
    unfold mkColName at heq
    rw [if_neg (by omega), if_neg (by omega), htake] at heq
    have henc := List.append_cancel_left heq
    exact hfnv (base32ofHash_inj _ _ (fnv32_lt _) (fnv32_lt _) henc)

/-- Witness for C8 (amended): the specification's Hungarian header
sanitizes to an identifier of at most 30 characters, and two long
headers differing beyond character 23 with distinct digests get
distinct identifiers. -/
theorem mkColName_witness :
    (mkColName ("Árvíztűrő_Tükörfúrógép").toList).length ≤ 30
      ∧ mkColName ("COLUMN_PREFIX_AAAAAAAAAAAAAAAAA").toList
        ≠ mkColName ("COLUMN_PREFIX_AAAAAAAAAAAAAAAAB").toList :=
  ⟨mkColName_spec.1 _ (by decide),
   mkColName_spec.2 _ _ (by decide) (by decide) (by decide) (by decide)⟩

/-- C8 counterexample: two distinct headers, already sanitized, longer
than 30 characters and agreeing on their first 23 characters, whose
FNV-1 digests collide — `mkColName` maps both to the same identifier,
refuting the unconditional hash-disambiguation claim. -/
theorem mkColName_collision_counterexample :
    ("COLUMN_PREFIX_AAAAAAAAAAAAAU3ZX").toList
        ≠ ("COLUMN_PREFIX_AAAAAAAAAAAAA1B2A").toList
      ∧ sanX ("COLUMN_PREFIX_AAAAAAAAAAAAAU3ZX").toList
        = ("COLUMN_PREFIX_AAAAAAAAAAAAAU3ZX").toList
      ∧ sanX ("COLUMN_PREFIX_AAAAAAAAAAAAA1B2A").toList
        = ("COLUMN_PREFIX_AAAAAAAAAAAAA1B2A").toList
      ∧ 30 < ("COLUMN_PREFIX_AAAAAAAAAAAAAU3ZX").toList.length
      ∧ ("COLUMN_PREFIX_AAAAAAAAAAAAAU3ZX").toList.take 23
        = ("COLUMN_PREFIX_AAAAAAAAAAAAA1B2A").toList.take 23
      ∧ mkColName ("COLUMN_PREFIX_AAAAAAAAAAAAAU3ZX").toList
        = mkColName ("COLUMN_PREFIX_AAAAAAAAAAAAA1B2A").toList := by
  decide

end Csvload

namespace Dbcsv

/-- Un-doubling quotes is a left inverse of doubling them. -/
theorem unescQuotes_escQuotes (s : List Char) :
    unescQuotes (escQuotes s) = s := by
  induction s with
  | nil => rfl
  | cons c r ih =>
    by_cases hc : c = '"'
    · subst hc
      simp only [escQuotes, if_pos rfl, unescQuotes, true_and, if_pos]
      rw [ih]
    · simp only [escQuotes, if_neg hc]
      cases her : escQuotes r with
      | nil =>
        rw [her] at ih
        have hr : r = [] := by simpa [unescQuotes] using ih
        subst hr
        rfl
      | cons d r2 =>
        rw [her] at ih
        simp only [unescQuotes, if_neg (fun h : c = '"' ∧ d = '"' => hc h.1)]
        rw [ih]

/-- C5: for a non-empty separator not contained in `s`, the rendering
wraps `s` in double quotes (doubling internal quotes) exactly when `s`
contains the separator, a double quote, or a newline; and stripping the
outer quotes and un-doubling internal quotes recovers `s` exactly. -/
theorem csvQuote_roundtrip (sep s : List Char) (hsep : sep ≠ [])
    (hnot : ¬sep <:+: s) :
    (csvQuoteString sep s = '"' :: (escQuotes s ++ ['"'])
        ↔ (decide (sep <:+: s) || s.any fun c => c == '"' || c == '\n') = true)
      ∧ csvUnquote (csvQuoteString sep s) = s := by
  have hq : csvQuoteString sep s = csvQuote sep s := by
    unfold csvQuoteString
    rw [if_neg hsep]
  rw [hq]
  unfold csvQuote csvNeedQuote
  by_cases hneed : (decide (sep <:+: s) || s.any fun c => c == '"' || c == '\n') = true
  · rw [if_pos hneed]
    refine ⟨⟨fun _ => hneed, fun _ => rfl⟩, ?_⟩
    unfold csvUnquote
    have hcond : 2 ≤ ('"' :: (escQuotes s ++ ['"'])).length
        ∧ ('"' :: (escQuotes s ++ ['"'])).head? = some '"'
        ∧ ('"' :: (escQuotes s ++ ['"'])).getLast? = some '"' := by
      refine ⟨by simp, by simp, ?_⟩
      rw [List.getLast?_cons, List.getLast?_concat]
      simp
    rw [if_pos hcond]
    simp only [List.drop_succ_cons, List.drop_zero, List.dropLast_concat]
    exact unescQuotes_escQuotes s
  · rw [if_neg hneed]
    have hnq : ∀ c ∈ s, ¬(c = '"' ∨ c = '\n') := by
      intro c hc hor
      apply hneed
      refine Bool.or_eq_true_iff.2 (Or.inr ?_)
      refine List.any_eq_true.2 ⟨c, hc, ?_⟩
      rcases hor with h | h <;> simp [h]
    constructor
    · constructor
      · intro heq
        exfalso
        have : '"' ∈ s := by
          rw [heq]
          exact List.mem_cons_self _ _
        exact hnq '"' this (Or.inl rfl)
      · intro h
        exact absurd h hneed
    · unfold csvUnquote
      have hhead : ¬(2 ≤ s.length ∧ s.head? = some '"' ∧ s.getLast? = some '"') := by
        rintro ⟨-, hh, -⟩
        have : '"' ∈ s := by
          cases s with
          | nil => simp at hh
          | cons a t =>
            simp only [List.head?_cons, Option.some.injEq] at hh
            exact hh ▸ List.mem_cons_self _ _
        exact hnq '"' this (Or.inl rfl)
      rw [if_neg hhead]

/-- Witness for C5 at a concrete separator and string. -/
theorem csvQuote_roundtrip_witness :
    (csvQuoteString [';'] ['a', '"', 'b'] = '"' :: (escQuotes ['a', '"', 'b'] ++ ['"'])
        ↔ (decide ([';'] <:+: ['a', '"', 'b'])
            || ['a', '"', 'b'].any fun c => c == '"' || c == '\n') = true)
      ∧ csvUnquote (csvQuoteString [';'] ['a', '"', 'b']) = ['a', '"', 'b'] :=
  csvQuote_roundtrip [';'] ['a', '"', 'b'] (by decide) (by decide)

/-- C4 (amended): when every configured 1-based column number lies
within the row, the surfaced row is exactly the configured subset and
order of the original fields; but any out-of-range column number makes
the projection loop panic (Go index-out-of-range), not surface an
empty-string field. -/
theorem projectRow_spec (oneBased : List Int) (row : List (List Char)) :
    ((∀ k ∈ oneBased, 1 ≤ k ∧ k ≤ (row.length : Int)) →
        projectRow (parseColumns oneBased) row
          = some (oneBased.map fun k => row.getD (k - 1).toNat []))
      ∧ ((∃ k ∈ oneBased, k < 1 ∨ (row.length : Int) < k) →
          projectRow (parseColumns oneBased) row = none) := by
  induction oneBased with
  | nil =>
    refine ⟨fun _ => rfl, fun hex => ?_⟩
    obtain ⟨k, hk, -⟩ := hex
    exact absurd hk (List.not_mem_nil k)
  | cons k rest ih =>
    constructor
    · intro hall
      have hk := hall k (List.mem_cons_self _ _)
      have hgi : goIndex row (k - 1) = some (row.getD (k - 1).toNat []) := by
        unfold goIndex
        rw [if_pos (by omega)]
      simp only [parseColumns, List.map_cons, projectRow, hgi]
      have hrest := ih.1 fun x hx => hall x (List.mem_cons_of_mem _ hx)
      simp only [parseColumns] at hrest
      rw [hrest]
    · intro hex
      obtain ⟨x, hx, hbad⟩ := hex
      rcases List.mem_cons.1 hx with hhead | htail
      · subst hhead
        have hgi : goIndex row (x - 1) = none := by
          unfold goIndex
          rw [if_neg (by omega)]
        simp only [parseColumns, List.map_cons, projectRow, hgi]
      · have hrest := ih.2 ⟨x, htail, hbad⟩
        simp only [parseColumns] at hrest
        simp only [parseColumns, List.map_cons, projectRow, hrest]
        cases goIndex row (k - 1) <;> rfl

/-- Witness for C4 (amended): in-range projection remaps; column 3 of
a one-field row panics. -/
theorem projectRow_witness :
    projectRow (parseColumns [3, 1]) [['a'], ['b'], ['c']] = some [['c'], ['a']]
      ∧ projectRow (parseColumns [3]) [['a']] = none :=
  ⟨(projectRow_spec [3, 1] [['a'], ['b'], ['c']]).1 (by decide),
   (projectRow_spec [3] [['a']]).2 ⟨3, by decide, by decide⟩⟩

/-- C4 counterexample: projecting column 3 (0-based index 2) out of a
one-field row makes `ReadCSV`'s loop index out of range (a panic,
`none`); it does not surface the empty-string field the claim
promises. -/
theorem projectRow_counterexample :
    projectRow [2] [['a']] = none ∧ projectRow [2] [['a']] ≠ some [[]] := by
  decide

/-- C6: `DetectReaderType` classifies a stream from its first bytes:
OLE2 magic ⇒ xls, ZIP local-file magic ⇒ xlsx, gzip magic ⇒ recursive
detection of the decompressed stream tagged compression=gzip, zstd
magic ⇒ likewise with zstd, anything else ⇒ csv; and a stream carrying
gzip or zstd magic whose decompressor fails to open is classified csv
with no error. -/
theorem DetectReaderType_spec (head : List Nat) (gz zst : Option Stream)
    (h4 : 4 ≤ head.length) :
    (head.take 4 = [0xd0, 0xcf, 0x11, 0xe0] →
        DetectReaderType (.mk head gz zst) = (⟨.xls, .unknown⟩, false))
      ∧ (head.take 4 = [0x50, 0x4b, 0x03, 0x04] →
          DetectReaderType (.mk head gz zst) = (⟨.xlsx, .unknown⟩, false))
      ∧ (head.take 3 = [0x1f, 0x8b, 0x8] →
          (gz = none →
              DetectReaderType (.mk head gz zst) = (⟨.csv, .unknown⟩, false))
            ∧ ∀ inner, gz = some inner →
                DetectReaderType (.mk head gz zst)
                  = (⟨(DetectReaderType inner).1.Typ, .gzip⟩, (DetectReaderType inner).2))
      ∧ (head.take 4 = [0x28, 0xb5, 0x2f, 0xfd] →
          (zst = none →
              DetectReaderType (.mk head gz zst) = (⟨.csv, .unknown⟩, false))
            ∧ ∀ inner, zst = some inner →
                DetectReaderType (.mk head gz zst)
                  = (⟨(DetectReaderType inner).1.Typ, .zstd⟩, (DetectReaderType inner).2))
      ∧ (head.take 4 ≠ [0xd0, 0xcf, 0x11, 0xe0] →
          head.take 4 ≠ [0x50, 0x4b, 0x03, 0x04] →
          head.take 3 ≠ [0x1f, 0x8b, 0x8] →
          head.take 4 ≠ [0x28, 0xb5, 0x2f, 0xfd] →
          DetectReaderType (.mk head gz zst) = (⟨.csv, .unknown⟩, false)) := by
  have hlt : ¬head.length < 4 := by omega
  have htt : (head.take 4).take 3 = head.take 3 := by
    rw [List.take_take]
    norm_num
  refine ⟨fun hm => ?_, fun hm => ?_, fun hm => ?_, fun hm => ?_,
    fun h1 h2 h3 h4m => ?_⟩
  · rw [DetectReaderType.eq_def]
    simp [hlt, hm]
  · have hne : head.take 4 ≠ [0xd0, 0xcf, 0x11, 0xe0] := by
      rw [hm]
      decide
    rw [DetectReaderType.eq_def]
    simp [hlt, hm, hne]
  · have hne1 : head.take 4 ≠ [0xd0, 0xcf, 0x11, 0xe0] := by
      intro he
      rw [← htt, he] at hm
      exact absurd hm (by decide)
    have hne2 : head.take 4 ≠ [0x50, 0x4b, 0x03, 0x04] := by
      intro he
      rw [← htt, he] at hm
      exact absurd hm (by decide)
    refine ⟨fun hgz => ?_, fun inner hgz => ?_⟩ <;> subst hgz <;>
      rw [DetectReaderType.eq_def] <;> simp [hlt, hm, hne1, hne2]
  · have hne3 : head.take 3 ≠ [0x1f, 0x8b, 0x8] := by
      rw [← htt, hm]
      decide
    have hne1 : head.take 4 ≠ [0xd0, 0xcf, 0x11, 0xe0] := by
      rw [hm]
      decide
    have hne2 : head.take 4 ≠ [0x50, 0x4b, 0x03, 0x04] := by
      rw [hm]
      decide
    refine ⟨fun hz => ?_, fun inner hz => ?_⟩ <;> subst hz <;>
      rw [DetectReaderType.eq_def] <;> simp [hlt, hm, hne1, hne2, hne3]
  · rw [DetectReaderType.eq_def]
    simp [hlt, h1, h2, h3, h4m]

/-- Witness for C6 at one concrete stream per branch, including a
gzip stream whose decompressor opens (recursion) and streams whose
decompressor would fail. -/
theorem DetectReaderType_witness :
    DetectReaderType (.mk [0xd0, 0xcf, 0x11, 0xe0] none none)
        = (⟨.xls, .unknown⟩, false)
      ∧ DetectReaderType (.mk [0x50, 0x4b, 0x03, 0x04] none none)
        = (⟨.xlsx, .unknown⟩, false)
      ∧ DetectReaderType (.mk [0x1f, 0x8b, 0x8, 0x0] none none)
        = (⟨.csv, .unknown⟩, false)
      ∧ DetectReaderType
          (.mk [0x1f, 0x8b, 0x8, 0x0]
            (some (.mk [0x41, 0x42, 0x43, 0x44] none none)) none)
        = (⟨.csv, .gzip⟩, false)
      ∧ DetectReaderType (.mk [0x28, 0xb5, 0x2f, 0xfd] none none)
        = (⟨.csv, .unknown⟩, false)
      ∧ DetectReaderType (.mk [0x41, 0x42, 0x43, 0x44] none none)
        = (⟨.csv, .unknown⟩, false) := by
  refine ⟨(DetectReaderType_spec _ _ _ (by decide)).1 (by decide),
    (DetectReaderType_spec _ _ _ (by decide)).2.1 (by decide),
    ((DetectReaderType_spec _ _ _ (by decide)).2.2.1 (by decide)).1 rfl,
    ?_,
    ((DetectReaderType_spec _ _ _ (by decide)).2.2.2.1 (by decide)).1 rfl,
    (DetectReaderType_spec _ _ _ (by decide)).2.2.2.2 (by decide) (by decide)
      (by decide) (by decide)⟩
  have h := ((DetectReaderType_spec [0x1f, 0x8b, 0x8, 0x0]
      (some (.mk [0x41, 0x42, 0x43, 0x44] none none)) none
      (by decide)).2.2.1 (by decide)).2 _ rfl
  rw [h]
  have hinner := (DetectReaderType_spec [0x41, 0x42, 0x43, 0x44] none none
      (by decide)).2.2.2.2 (by decide) (by decide) (by decide) (by decide)
  rw [hinner]

/-- The detection fold, unrolled. -/
theorem detectDelim_eq_goPick (b : List Char) :
    detectDelim b
      = (goPick (countFields ',' b) (countFields ';' b)
          (countFields '\t' b) (countFields ' ' b)).2 := rfl

/-- The four ways the unrolled selection can end: each candidate wins
exactly when it strictly beats every earlier candidate and at least
ties every later one (the first candidate also needs a positive
count to displace the empty initial state). -/
theorem goPick_cases (n1 n2 n3 n4 : Nat) :
    (0 < n1 → n2 ≤ n1 → n3 ≤ n1 → n4 ≤ n1 → goPick n1 n2 n3 n4 = (n1, some ','))
      ∧ (n1 < n2 → n3 ≤ n2 → n4 ≤ n2 → goPick n1 n2 n3 n4 = (n2, some ';'))
      ∧ (n1 < n3 → n2 < n3 → n4 ≤ n3 → goPick n1 n2 n3 n4 = (n3, some '\t'))
      ∧ (n1 < n4 → n2 < n4 → n3 < n4 → goPick n1 n2 n3 n4 = (n4, some ' ')) := by
  unfold goPick
  refine ⟨fun h1 h2 h3 h4 => ?_, fun h1 h2 h3 => ?_, fun h1 h2 h3 => ?_,
    fun h1 h2 h3 => ?_⟩ <;>
    (simp only []; split_ifs <;> simp_all <;> omega)

/-- C7: when no delimiter is configured, `ReadCSV` samples at most 1024
bytes and selects, among the candidates comma, semicolon, tab, space in
that enumeration order, the one whose CSV-split of the first record
yields the most fields, ties broken in favor of the earlier candidate
(the hypothesis rules out the degenerate sample on which every
candidate yields zero fields and no delimiter is selected at all). -/
theorem readCSV_delimiter_detection (s : List Char)
    (hpos : ∃ c ∈ candidateDelims, 0 < countFields c (s.take 1024)) :
    ∃ d, readCSVDetectDelim s = some d ∧ d ∈ candidateDelims
      ∧ (∀ c ∈ candidateDelims,
          countFields c (s.take 1024) ≤ countFields d (s.take 1024))
      ∧ ∀ c ∈ candidateDelims,
          countFields c (s.take 1024) = countFields d (s.take 1024) →
          candidateDelims.indexOf d ≤ candidateDelims.indexOf c := by
  obtain ⟨c0, hmem0, hpos0⟩ := hpos
  have hc0 : c0 = ',' ∨ c0 = ';' ∨ c0 = '\t' ∨ c0 = ' ' := by
    simpa [candidateDelims] using hmem0
  unfold readCSVDetectDelim
  rw [detectDelim_eq_goPick]
  set n1 := countFields ',' (s.take 1024) with hn1
  set n2 := countFields ';' (s.take 1024) with hn2
  set n3 := countFields '\t' (s.take 1024) with hn3
  set n4 := countFields ' ' (s.take 1024) with hn4
  have hpos4 : 0 < n1 ∨ 0 < n2 ∨ 0 < n3 ∨ 0 < n4 := by
    rcases hc0 with rfl | rfl | rfl | rfl
    · exact Or.inl hpos0
    · exact Or.inr (Or.inl hpos0)
    · exact Or.inr (Or.inr (Or.inl hpos0))
    · exact Or.inr (Or.inr (Or.inr hpos0))
  obtain ⟨g1, g2, g3, g4⟩ := goPick_cases n1 n2 n3 n4
  by_cases A : n2 ≤ n1 ∧ n3 ≤ n1 ∧ n4 ≤ n1
  · rw [g1 (by omega) A.1 A.2.1 A.2.2]
    refine ⟨',', rfl, by decide, fun c hc => ?_, fun c hc => ?_⟩ <;>
      have hcc : c = ',' ∨ c = ';' ∨ c = '\t' ∨ c = ' ' := by
        simpa [candidateDelims] using hc
    · rcases hcc with rfl | rfl | rfl | rfl <;> omega
    · rcases hcc with rfl | rfl | rfl | rfl <;> intro _ <;> decide
  · by_cases B : n1 < n2 ∧ n3 ≤ n2 ∧ n4 ≤ n2
    · rw [g2 B.1 B.2.1 B.2.2]
      refine ⟨';', rfl, by decide, fun c hc => ?_, fun c hc => ?_⟩ <;>
        have hcc : c = ',' ∨ c = ';' ∨ c = '\t' ∨ c = ' ' := by
          simpa [candidateDelims] using hc
      · rcases hcc with rfl | rfl | rfl | rfl <;> omega
      · rcases hcc with rfl | rfl | rfl | rfl
        · intro hceq
          exact absurd hceq (by omega)
        · intro _
          decide
        · intro _
          decide
        · intro _
          decide
    · by_cases C : n1 < n3 ∧ n2 < n3 ∧ n4 ≤ n3
      · rw [g3 C.1 C.2.1 C.2.2]
        refine ⟨'\t', rfl, by decide, fun c hc => ?_, fun c hc => ?_⟩ <;>
          have hcc : c = ',' ∨ c = ';' ∨ c = '\t' ∨ c = ' ' := by
            simpa [candidateDelims] using hc
        · rcases hcc with rfl | rfl | rfl | rfl <;> omega
        · rcases hcc with rfl | rfl | rfl | rfl
          · intro hceq
            exact absurd hceq (by omega)
          · intro hceq
            exact absurd hceq (by omega)
          · intro _
            decide
          · intro _
            decide
      · have D : n1 < n4 ∧ n2 < n4 ∧ n3 < n4 := by omega
        rw [g4 D.1 D.2.1 D.2.2]
        refine ⟨' ', rfl, by decide, fun c hc => ?_, fun c hc => ?_⟩ <;>
          have hcc : c = ',' ∨ c = ';' ∨ c = '\t' ∨ c = ' ' := by
            simpa [candidateDelims] using hc
        · rcases hcc with rfl | rfl | rfl | rfl <;> omega
        · rcases hcc with rfl | rfl | rfl | rfl
          · intro hceq
            exact absurd hceq (by omega)
          · intro hceq
            exact absurd hceq (by omega)
          · intro hceq
            exact absurd hceq (by omega)
          · intro _
            decide

/-- Witness for C7 at the specification's worked example
(first line quoted `COL1,` then `;COL2`, second line `a;b`). -/
theorem readCSV_delimiter_witness :
    ∃ d, readCSVDetectDelim ("\"COL1,\";COL2\na;b\n").toList = some d
      ∧ d ∈ candidateDelims
      ∧ (∀ c ∈ candidateDelims,
          countFields c (("\"COL1,\";COL2\na;b\n").toList.take 1024)
            ≤ countFields d (("\"COL1,\";COL2\na;b\n").toList.take 1024))
      ∧ ∀ c ∈ candidateDelims,
          countFields c (("\"COL1,\";COL2\na;b\n").toList.take 1024)
            = countFields d (("\"COL1,\";COL2\na;b\n").toList.take 1024) →
          candidateDelims.indexOf d ≤ candidateDelims.indexOf c :=
  readCSV_delimiter_detection _ ⟨';', by decide, by decide⟩

/-- The specification's worked example, evaluated: the sample selects
the semicolon. -/
theorem detect_example_semicolon :
    readCSVDetectDelim ("\"COL1,\";COL2\na;b\n").toList = some ';' := by
  decide

/-- The first record of the worked example under the selected
semicolon delimiter. -/
theorem firstRecord_example :
    readFirstRecord ';' ("\"COL1,\";COL2\na;b\n").toList
      = [("COL1,").toList, ("COL2").toList] := by
  decide

/-- The second record: parsing the remaining input after the first
line yields `["a","b"]`. -/
theorem secondRecord_example :
    readFirstRecord ';' ("a;b\n").toList = [['a'], ['b']] := by
  decide

end Dbcsv
